import Mathlib

/-!
Shallow embedding of the news-search-engine ingestion pipeline
(src/backend/cleaners.py, models.py, flow.py, qdrant.py, news_loader.py,
embeddings.py) together with the library routines those modules call
(unstructured.cleaners.core, unstructured.staging.huggingface,
langchain_text_splitters.RecursiveCharacterTextSplitter).

Strings are modelled as `List Char`.  Machine-level details that the claims
do not touch (the transformer weights, the md5 digest, the qdrant wire
protocol) are abstracted as function parameters; everything the claims do
touch is translated operation by operation from the sources.
-/

set_option maxHeartbeats 1600000

namespace NewsSearch

/-! ## Python string primitives -/

/-- Characters stripped by Python `str.strip()`, i.e. the full
Py_UNICODE_ISSPACE set: tab through carriage return (\x09-\x0d), the
file/group/record/unit separators (\x1c-\x1f), the space, next line (\x85),
no-break space (\xa0), ogham space mark (U+1680), the U+2000-U+200A spaces,
line and paragraph separators (U+2028, U+2029), narrow no-break space
(U+202F), medium mathematical space (U+205F) and ideographic space (U+3000). -/
def isPySpace (c : Char) : Bool :=
  (9 ≤ c.toNat && c.toNat ≤ 13) || (28 ≤ c.toNat && c.toNat ≤ 32) ||
  c.toNat = 0x85 || c.toNat = 0xa0 || c.toNat = 0x1680 ||
  (0x2000 ≤ c.toNat && c.toNat ≤ 0x200a) || c.toNat = 0x2028 ||
  c.toNat = 0x2029 || c.toNat = 0x202f || c.toNat = 0x205f || c.toNat = 0x3000

/-- Drop leading whitespace, as the left half of Python `str.strip()`. -/
def pyStripLeft : List Char → List Char
  | [] => []
  | c :: cs => if isPySpace c then pyStripLeft cs else c :: cs

/-- Python `str.strip()`: drop leading and trailing whitespace. -/
def pyStrip (l : List Char) : List Char :=
  (pyStripLeft (pyStripLeft l).reverse).reverse

/-- Python `string.punctuation`. -/
def pyPunctuation : List Char :=
  "!\"#$%&\x27()*+,-./:;<=>?@[\\]^_\x60\x7b|\x7d~".data

/-- One scanning step of Python `str.replace(pat, rep)`: replace non-overlapping
occurrences left to right.  The fuel argument bounds the number of characters
consumed; it is always called with fuel = length of the text, which suffices
because every step consumes at least one character. -/
def pyReplaceGo (pat rep : List Char) : Nat → List Char → List Char
  | _, [] => []
  | 0, l => l
  | fuel + 1, c :: cs =>
    if pat ≠ [] ∧ pat.isPrefixOf (c :: cs) then
      rep ++ pyReplaceGo pat rep fuel (List.drop (pat.length - 1) cs)
    else
      c :: pyReplaceGo pat rep fuel cs

/-- Python `text.replace(pat, rep)` for a non-empty literal pattern. -/
def pyReplace (pat rep l : List Char) : List Char :=
  pyReplaceGo pat rep l.length l

/-! ## cleaners.py and the unstructured.cleaners.core routines it calls -/

/-- unstructured.cleaners.core.remove_punctuation:
`text.translate(str.maketrans("", "", string.punctuation))`. -/
def remove_punctuation (l : List Char) : List Char :=
  l.filter (fun c => !(pyPunctuation.contains c))

/-- unstructured.cleaners.core.clean_non_ascii_chars:
`text.encode("ascii", "ignore").decode()` drops every non-ASCII character. -/
def clean_non_ascii_chars (l : List Char) : List Char :=
  l.filter (fun c => c.toNat < 128)

/-- Replacement table of unstructured.cleaners.core.replace_unicode_quotes:
windows-1252 artifacts (\x91-\x94), `&apos;`, and the UTF-8-as-latin-1
mojibake sequences starting with U+00E2 are rewritten to proper quote
characters (or dropped).  Every pattern begins with \x91-\x94, `&` or U+00E2. -/
def quoteTable : List (List Char × List Char) :=
  [ (['\x91'], ['‘'])
  , (['\x92'], ['’'])
  , (['\x93'], ['“'])
  , (['\x94'], ['”'])
  , ("&apos;".data, ['\x27'])
  , (['â', '\x80', '\x99'], ['\x27'])
  , (['â', '\x80', '“'], ['—'])
  , (['â', '\x80', '”'], ['–'])
  , (['â', '\x80', '˜'], ['‘'])
  , (['â', '\x80', '¦'], ['…'])
  , (['â', '\x80', '™'], ['’'])
  , (['â', '\x80', 'œ'], ['“'])
  , (['â', '\x80', '?'], ['”'])
  , (['â', '\x80', 'ť'], ['”'])
  , (['â', '\x80', 'ś'], ['“'])
  , (['â', '\x80', '¨'], ['—'])
  , (['â', '\x80', 'ł'], ['″'])
  , (['â', '\x80', 'Ž'], [])
  , (['â', '\x80', '‚'], [])
  , (['â', '\x80', '‰'], [])
  , (['â', '\x80', '‹'], [])
  , (['â', '\x80'], [])
  ]

/-- unstructured.cleaners.core.replace_unicode_quotes: the chained
`str.replace` calls, applied in table order. -/
def replace_unicode_quotes (l : List Char) : List Char :=
  quoteTable.foldl (fun acc pr => pyReplace pr.1 pr.2 acc) l

/-- Python `str.lower()`; Lean's `Char.toLower` only lowers A-Z, which agrees
with Python on ASCII (non-ASCII letters are dropped later by
`clean_non_ascii_chars`, so the difference is invisible to `clean_full`). -/
def pyLower (l : List Char) : List Char :=
  l.map Char.toLower

/-- Dash characters of unstructured.cleaners.core.clean_dashes. -/
def isDashChar (c : Char) : Bool :=
  c = '-' || c = '–'

/-- unstructured.cleaners.core.clean_dashes:
`re.sub(r"[-–]", " ", text).strip()`. -/
def clean_dashes (l : List Char) : List Char :=
  pyStrip (l.map (fun c => if isDashChar c then ' ' else c))

/-- First half of clean_extra_whitespace: `re.sub(r"[\xa0\n]", " ", text)`. -/
def subNbspNewline (l : List Char) : List Char :=
  l.map (fun c => if c = '\xa0' || c = '\n' then ' ' else c)

/-- Second half of clean_extra_whitespace, `re.sub(r"([ ]{2,})", " ", text)`:
every maximal run of two or more spaces becomes one space.  The Bool records
whether the previous character was a space. -/
def collapseGo : Bool → List Char → List Char
  | _, [] => []
  | prevSpace, c :: cs =>
    if c = ' ' then
      if prevSpace then collapseGo true cs else ' ' :: collapseGo true cs
    else c :: collapseGo false cs

/-- Collapse runs of two or more spaces to a single space. -/
def collapseSpaces (l : List Char) : List Char :=
  collapseGo false l

/-- unstructured.cleaners.core.clean_extra_whitespace. -/
def clean_extra_whitespace (l : List Char) : List Char :=
  pyStrip (collapseSpaces (subNbspNewline l))

/-- Bullet characters of unstructured.cleaners.core.UNICODE_BULLETS (the
single-character entries: \x95, the u2022-family bullets, the middle dot,
the asterisk and the dash). -/
def bulletChars : List Char :=
  ['\x95', '•', '‣', '⁃', '∙', '○', '●',
   '◘', '◦', '☙', '❥', '❧', '·', '*', '-']

/-- unstructured.cleaners.core.clean_bullets: if the text starts with a
bullet, remove that first bullet and strip; otherwise return it unchanged. -/
def clean_bullets (l : List Char) : List Char :=
  match l with
  | [] => []
  | c :: cs => if bulletChars.contains c then pyStrip cs else c :: cs

/-- unstructured.cleaners.core.clean with lowercase, extra_whitespace, dashes
and bullets enabled, exactly as cleaners.py calls it: lowercase, then
clean_dashes, then clean_extra_whitespace, then clean_bullets, then a final
strip. -/
def clean (l : List Char) : List Char :=
  pyStrip (clean_bullets (clean_extra_whitespace (clean_dashes (pyLower l))))

/-- cleaners.py clean_full: clean, replace_unicode_quotes,
clean_non_ascii_chars, remove_punctuation, in that order. -/
def clean_full (l : List Char) : List Char :=
  remove_punctuation (clean_non_ascii_chars (replace_unicode_quotes (clean l)))

/-- clean_full on Lean strings. -/
def cleanFullStr (s : String) : String :=
  ⟨clean_full s.data⟩

/-! ## models.py field validators -/

/-- CommonDocument.clean_text_fields (validator for title, description,
content): `return clean_full(value) if value else "N/A"`.  A `none` models an
absent field and `some ""` an empty one; both are falsy in Python. -/
def clean_text_fields (value : Option String) : String :=
  match value with
  | none => "N/A"
  | some s => if s = "" then "N/A" else cleanFullStr s

/-- A Python `datetime` as far as `strftime("%Y-%m-%d %H:%M:%S")` needs it. -/
structure PyDateTime where
  year : Nat
  month : Nat
  day : Nat
  hour : Nat
  minute : Nat
  second : Nat
deriving DecidableEq, Repr

/-- Zero-pad a number to two digits, as the strftime numeric fields do. -/
def pad2 (n : Nat) : String :=
  if n < 10 then "0" ++ toString n else toString n

/-- Zero-pad a year to four digits, as strftime %Y does. -/
def pad4 (n : Nat) : String :=
  if n < 10 then "000" ++ toString n
  else if n < 100 then "00" ++ toString n
  else if n < 1000 then "0" ++ toString n
  else toString n

/-- `datetime.strftime("%Y-%m-%d %H:%M:%S")`. -/
def strftimeYmdHMS (d : PyDateTime) : String :=
  pad4 d.year ++ "-" ++ pad2 d.month ++ "-" ++ pad2 d.day ++ " " ++
    pad2 d.hour ++ ":" ++ pad2 d.minute ++ ":" ++ pad2 d.second

/-- models.py CURRENT_TIMESTAMP: `datetime.utcnow().strftime("%Y-%m-%d %H:%M:%S")`,
evaluated once when the module is imported; `moduleLoadUtc` is that import-time
instant. -/
def CURRENT_TIMESTAMP (moduleLoadUtc : PyDateTime) : String :=
  strftimeYmdHMS moduleLoadUtc

/-- Outcome of `dateutil.parser.parse(value)`: a parsed datetime, or a
ValueError/TypeError parse failure (the two exception types the validator
catches). -/
inductive ParseOutcome where
  | ok (d : PyDateTime)
  | err
deriving DecidableEq, Repr

/-- CommonDocument.clean_date_field: format the parsed date, falling back to
the module-level CURRENT_TIMESTAMP constant on a parse failure.  The function
is total: the except branch returns instead of raising. -/
def clean_date_field (moduleLoadUtc : PyDateTime) (parsed : ParseOutcome) : String :=
  match parsed with
  | .ok d => strftimeYmdHMS d
  | .err => CURRENT_TIMESTAMP moduleLoadUtc

/-! ## flow.py NewsStreamSource -/

/-- flow.py NewsStreamSource: the bytewax stateful source partition.  Its only
state is `last_fetched_timestamp` (a UTC instant, modelled as Nat). -/
structure NewsStreamSource where
  last_fetched_timestamp : Nat
deriving DecidableEq, Repr

/-- NewsStreamSource.__init__:
`self.last_fetched_timestamp = resume_state or datetime.now(tz=timezone.utc)`;
`constructionNow` is the wall-clock instant at construction. -/
def NewsStreamSource.init (resume_state : Option Nat) (constructionNow : Nat) :
    NewsStreamSource :=
  { last_fetched_timestamp := resume_state.getD constructionNow }

/-- NewsStreamSource.next_batch: call the fetch function, return `[]` when it
yielded nothing and the articles otherwise.  The method reads no clock and
writes no state, so the (unchanged) source is returned alongside the batch. -/
def NewsStreamSource.next_batch (s : NewsStreamSource) (fetched : List String) :
    List String × NewsStreamSource :=
  (if fetched.isEmpty then [] else fetched, s)

/-- NewsStreamSource.snapshot: `return self.last_fetched_timestamp`. -/
def NewsStreamSource.snapshot (s : NewsStreamSource) : Nat :=
  s.last_fetched_timestamp

/-! ## langchain_text_splitters.RecursiveCharacterTextSplitter

models.py builds `RECURSIVE_SPLITTER = RecursiveCharacterTextSplitter()` with
every constructor default: separators ["\n\n", "\n", " ", ""],
keep_separator=True, chunk_size=4000, chunk_overlap=200, length_function=len,
strip_whitespace=True, is_separator_regex=False. -/

/-- Splitter default `chunk_size`. -/
def chunkSize : Nat := 4000

/-- Splitter default `chunk_overlap`. -/
def chunkOverlap : Nat := 200

/-- Whether the (literal, non-empty) pattern occurs in the text, as
`re.search(re.escape(pat), text)` reports for non-empty patterns. -/
def containsSub (pat : List Char) : List Char → Bool
  | [] => pat.isEmpty
  | c :: cs => pat.isPrefixOf (c :: cs) || containsSub pat cs

/-- Python `re.split(sep, text)` for a non-empty literal separator: the pieces
between non-overlapping occurrences, empties included.  Fueled by the text
length (each step consumes at least one character, so that fuel suffices). -/
def splitOnSepGo (sep : List Char) : Nat → List Char → List (List Char)
  | _, [] => [[]]
  | 0, l => [l]
  | fuel + 1, c :: cs =>
    if sep ≠ [] ∧ sep.isPrefixOf (c :: cs) then
      [] :: splitOnSepGo sep fuel (List.drop (sep.length - 1) cs)
    else
      match splitOnSepGo sep fuel cs with
      | [] => [[c]]
      | p :: ps => (c :: p) :: ps

/-- Python `re.split(sep, text)` on a literal separator. -/
def splitOnSep (sep l : List Char) : List (List Char) :=
  splitOnSepGo sep l.length l

/-- langchain_text_splitters._split_text_with_regex with keep_separator=True:
split on the separator keeping the delimiters, re-attach each separator to
the front of the following piece, and drop empty strings; the empty separator
splits into single characters (`list(text)`). -/
def splitWithRegexKeep (sep text : List Char) : List (List Char) :=
  if sep = [] then (text.map (fun c => [c])).filter (fun s => s ≠ [])
  else
    match splitOnSep sep text with
    | [] => []
    | p :: ps => (p :: ps.map (fun q => sep ++ q)).filter (fun s => s ≠ [])

/-- Separator-selection loop of RecursiveCharacterTextSplitter._split_text:
take the first separator that is empty (always a hit) or occurs in the text,
remembering the remaining separators; if none hits, keep the last separator
(`dflt`) with no remaining ones. -/
def chooseSeparatorAux (dflt text : List Char) :
    List (List Char) → List Char × List (List Char)
  | [] => (dflt, [])
  | s :: rest =>
    if s = [] then ([], [])
    else if containsSub s text then (s, rest)
    else chooseSeparatorAux dflt text rest

/-- Python `separator.join(docs)`. -/
def sepJoin (sep : List Char) : List (List Char) → List Char
  | [] => []
  | [x] => x
  | x :: y :: rest => x ++ sep ++ sepJoin sep (y :: rest)

/-- TextSplitter._join_docs with strip_whitespace=True: join, strip, and
return none for an empty result. -/
def joinDocs (sep : List Char) (docs : List (List Char)) : Option (List Char) :=
  let text := pyStrip (sepJoin sep docs)
  if text = [] then none else some text

/-- The inner while-loop of TextSplitter._merge_splits, popping the front of
`current_doc` while the running total is past the overlap or the next piece
would not fit.  In Python the subtraction is exact because `total` is the
exact running sum; Nat subtraction agrees there.  An empty `current_doc`
coincides with `total = 0`, where the loop condition is false. -/
def mergeWhile (sepLen lenD : Nat) : List (List Char) → Nat → List (List Char) × Nat
  | [], total => ([], total)
  | d0 :: rest, total =>
    if total > chunkOverlap ∨
        (total + lenD + (if (d0 :: rest).length > 0 then sepLen else 0) > chunkSize
          ∧ total > 0) then
      mergeWhile sepLen lenD rest
        (total - (d0.length + if rest.length > 0 then sepLen else 0))
    else (d0 :: rest, total)

/-- Main loop of TextSplitter._merge_splits over the splits, carrying the
emitted docs, the current buffer and its running total. -/
def mergeLoop (sep : List Char) :
    List (List Char) → List (List Char) → List (List Char) → Nat → List (List Char)
  | [], docs, currentDoc, _ =>
    (match joinDocs sep currentDoc with
     | some doc => docs ++ [doc]
     | none => docs)
  | d :: ds, docs, currentDoc, total =>
    let lenD := d.length
    let st :=
      if total + lenD + (if currentDoc.length > 0 then sep.length else 0) > chunkSize then
        if currentDoc.length > 0 then
          let docs1 :=
            match joinDocs sep currentDoc with
            | some doc => docs ++ [doc]
            | none => docs
          let pr := mergeWhile sep.length lenD currentDoc total
          (docs1, pr.1, pr.2)
        else (docs, currentDoc, total)
      else (docs, currentDoc, total)
    let currentDoc1 := st.2.1 ++ [d]
    let total1 := st.2.2 + lenD + (if currentDoc1.length > 1 then sep.length else 0)
    mergeLoop sep ds st.1 currentDoc1 total1

/-- TextSplitter._merge_splits. -/
def mergeSplits (sep : List Char) (splits : List (List Char)) : List (List Char) :=
  mergeLoop sep splits [] [] 0

/-- Loop of RecursiveCharacterTextSplitter._split_text over the splits:
pieces shorter than chunk_size are buffered as good splits; an oversized piece
flushes the buffer through _merge_splits and is either emitted as-is (no
separators left) or split recursively (`recurse`).  `mergeSep` is the merge
separator, the empty string because keep_separator is set. -/
def processSplits (recurse : List Char → List (List Char))
    (newSeps : List (List Char)) (mergeSep : List Char) :
    List (List Char) → List (List Char) → List (List Char) → List (List Char)
  | [], finalChunks, goodSplits =>
    if goodSplits ≠ [] then finalChunks ++ mergeSplits mergeSep goodSplits
    else finalChunks
  | s :: ss, finalChunks, goodSplits =>
    if s.length < chunkSize then
      processSplits recurse newSeps mergeSep ss finalChunks (goodSplits ++ [s])
    else
      let fc1 :=
        if goodSplits ≠ [] then finalChunks ++ mergeSplits mergeSep goodSplits
        else finalChunks
      let fc2 := if newSeps = [] then fc1 ++ [s] else fc1 ++ recurse s
      processSplits recurse newSeps mergeSep ss fc2 []

/-- RecursiveCharacterTextSplitter._split_text, fueled by the recursion depth.
Each recursive call passes a strict suffix of the separator list (and the
empty separator stops recursion), so fuel = number of separators suffices and
the fuel-exhausted branch is unreachable from `split_text`. -/
def splitTextFuel : Nat → List (List Char) → List Char → List (List Char)
  | 0, _, _ => []
  | fuel + 1, separators, text =>
    let pr := chooseSeparatorAux (separators.getLast?.getD []) text separators
    let splits := splitWithRegexKeep pr.1 text
    processSplits (fun t => splitTextFuel fuel pr.2 t) pr.2 [] splits [] []

/-- Separators of `RecursiveCharacterTextSplitter()`: ["\n\n", "\n", " ", ""]. -/
def defaultSeparators : List (List Char) :=
  ["\n\n".data, "\n".data, " ".data, []]

/-- RECURSIVE_SPLITTER.split_text of models.py. -/
def split_text (text : List Char) : List (List Char) :=
  splitTextFuel defaultSeparators.length defaultSeparators text

/-! ## unstructured.staging.huggingface.chunk_by_attention_window

Called by ChunkedDocument.chunk_text with the embedder's tokenizer and every
default: buffer=2, split_function = `text.split(" ")`, chunk_separator " ",
max_input_size = the tokenizer's window.  The tokenizer itself is external;
`tk` abstracts `len(tokenizer.tokenize(segment))`. -/

/-- Python `text.split(" ")`: split on single spaces keeping empty pieces. -/
def pySplitSpace (l : List Char) : List (List Char) :=
  splitOnSep [' '] l

/-- Segment loop of chunk_by_attention_window: raise (`.error`) when a single
segment exceeds the budget, flush the accumulated chunk when the next segment
would overflow it, and append the final chunk at the last segment. -/
def cawLoop (tk : List Char → Nat) (maxChunk : Nat) :
    List (List Char) → List (List Char) → List Char → Nat →
    Except Unit (List (List Char))
  | [], chunks, _, _ => .ok chunks
  | seg :: rest, chunks, chunkText, acc =>
    let numTokens := tk seg
    if numTokens > maxChunk then .error ()
    else
      let st :=
        if acc + numTokens > maxChunk then (chunks ++ [chunkText], ([] : List Char), 0)
        else (chunks, chunkText, acc)
      if rest = [] then .ok (st.1 ++ [st.2.1 ++ seg])
      else cawLoop tk maxChunk rest st.1 (st.2.1 ++ seg ++ [' ']) (st.2.2 + numTokens)

/-- unstructured.staging.huggingface.chunk_by_attention_window with
max_chunk_size = max_input_size - buffer, buffer = 2. -/
def chunk_by_attention_window (tk : List Char → Nat) (maxInputSize : Nat)
    (text : List Char) : Except Unit (List (List Char)) :=
  cawLoop tk (maxInputSize - 2) (pySplitSpace text) [] [] 0

/-- ChunkedDocument.chunk_text: coarse recursive split, then per-section
attention-window chunking, extending one chunk list; an exception from any
section aborts the whole call. -/
def chunk_text (tk : List Char → Nat) (maxInputSize : Nat) (text : List Char) :
    Except Unit (List (List Char)) :=
  (split_text text).foldl
    (fun acc sec =>
      match acc with
      | .error e => .error e
      | .ok cs =>
        match chunk_by_attention_window tk maxInputSize sec with
        | .error e => .error e
        | .ok news => .ok (cs ++ news))
    (.ok [])

/-! ## embeddings.py TextEmbedder -/

/-- What the tokenizer+model pair does on a non-empty input inside
TextEmbedder.__call__: tokenization may raise, inference may raise, or the
model yields the flattened embedding list.  The transformer itself is an
external collaborator, so the per-input outcome is a parameter. -/
inductive ModelOutcome where
  | tokenizationError
  | inferenceError
  | ok (v : List Float)

/-- TextEmbedder.__call__ with to_list=True: empty input returns `[]` with a
warning; a tokenization or inference exception is caught and returns `[]`;
otherwise the flattened embedding list is returned. -/
def textEmbedderCall (modelRun : String → ModelOutcome) (input_text : String) :
    List Float :=
  if input_text = "" then []
  else
    match modelRun input_text with
    | .tokenizationError => []
    | .inferenceError => []
    | .ok v => v

/-! ## models.py document records -/

/-- The metadata dict built by RefinedDocument.from_common, which always holds
exactly the keys title, url, published_at, source_name, image_url; modelled as
a record with those fields. -/
structure Metadata where
  title : String
  url : String
  published_at : String
  source_name : String
  image_url : Option String
deriving DecidableEq, Repr

/-- CommonDocument after validation (the fields RefinedDocument.from_common
reads). -/
structure CommonDoc where
  article_id : String
  title : String
  url : String
  published_at : String
  source_name : String
  image_url : Option String
  description : String
  content : String
deriving DecidableEq, Repr

/-- RefinedDocument. -/
structure RefinedDoc where
  doc_id : String
  full_text : String
  metadata : Metadata
deriving DecidableEq, Repr

/-- RefinedDocument.from_common: doc_id = article_id, full_text =
`".".join([title, description])`, metadata = the denormalized subset. -/
def RefinedDoc.from_common (c : CommonDoc) : RefinedDoc :=
  { doc_id := c.article_id
  , full_text := c.title ++ "." ++ c.description
  , metadata :=
      { title := c.title
      , url := c.url
      , published_at := c.published_at
      , source_name := c.source_name
      , image_url := c.image_url } }

/-- ChunkedDocument. -/
structure ChunkedDoc where
  doc_id : String
  chunk_id : String
  full_raw_text : String
  text : String
  metadata : Metadata
deriving DecidableEq, Repr

/-- ChunkedDocument.from_refined: chunk the full text and build one
ChunkedDocument per chunk, with chunk_id = md5 hexdigest of the chunk text.
The md5 digest is an external deterministic function, passed as `md5hex`. -/
def ChunkedDoc.from_refined (md5hex : String → String) (tk : List Char → Nat)
    (maxInputSize : Nat) (r : RefinedDoc) : Except Unit (List ChunkedDoc) :=
  match chunk_text tk maxInputSize r.full_text.data with
  | .error e => .error e
  | .ok chunks =>
    .ok (chunks.map (fun ch =>
      { doc_id := r.doc_id
      , chunk_id := md5hex ⟨ch⟩
      , full_raw_text := r.full_text
      , text := ⟨ch⟩
      , metadata := r.metadata }))

/-- EmbeddedDocument. -/
structure EmbeddedDoc where
  doc_id : String
  chunk_id : String
  full_raw_text : String
  text : String
  embeddings : List Float
  metadata : Metadata

/-- EmbeddedDocument.from_chunked: embeddings = embedding_model(text,
to_list=True), everything else copied. -/
def EmbeddedDoc.from_chunked (emb : String → List Float) (c : ChunkedDoc) :
    EmbeddedDoc :=
  { doc_id := c.doc_id
  , chunk_id := c.chunk_id
  , full_raw_text := c.full_raw_text
  , text := c.text
  , embeddings := emb c.text
  , metadata := c.metadata }

/-! ## flow.py build: the transform chain between source and sink -/

/-- The "chunkenize" stage applied to a whole batch: map refine over the
input, then flat_map ChunkedDocument.from_refined (an exception from one
document aborts the batch, as an uncaught Python exception would). -/
def chunkStage (md5hex : String → String) (tk : List Char → Nat)
    (maxInputSize : Nat) (inp : List CommonDoc) : Except Unit (List ChunkedDoc) :=
  (inp.map RefinedDoc.from_common).foldl
    (fun acc r =>
      match acc with
      | .error e => .error e
      | .ok cs =>
        match ChunkedDoc.from_refined md5hex tk maxInputSize r with
        | .error e => .error e
        | .ok news => .ok (cs ++ news))
    (.ok [])

/-- flow.py build, from input batch to the batch handed to the sink: map
refine, flat_map chunkenize, map embed, output.  There is no further stage
between the embed map and `op.output`. -/
def flowSinkInput (md5hex : String → String) (tk : List Char → Nat)
    (maxInputSize : Nat) (modelRun : String → ModelOutcome)
    (inp : List CommonDoc) : Except Unit (List EmbeddedDoc) :=
  match chunkStage md5hex tk maxInputSize inp with
  | .error e => .error e
  | .ok chunked =>
    .ok (chunked.map (EmbeddedDoc.from_chunked (textEmbedderCall modelRun)))

/-! ## qdrant.py QdrantVectorSink -/

/-- A stored point: `PointStruct(id=..., vector=..., payload=...)`; the
payload is the document metadata. -/
structure Point where
  id : String
  vector : List Float
  payload : Metadata

/-- The sink's view of the qdrant client: the stored points, plus which urls
make `query_points` raise (network failure, malformed query, ...). -/
structure QdrantClientModel where
  store : List Point
  queryError : String → Bool

/-- client.query_points filtered on payload url with limit 1: an exception
(`.error`) when the store misbehaves for this url, otherwise the url-matching
points capped at one. -/
def query_points (c : QdrantClientModel) (url : String) :
    Except Unit (List Point) :=
  if c.queryError url then .error ()
  else .ok ((c.store.filter (fun p => p.payload.url = url)).take 1)

/-- QdrantVectorSink.article_exists: `len(response.points) > 0`, with any
exception caught and turned into False. -/
def article_exists (c : QdrantClientModel) (article_url : String) : Bool :=
  match query_points c article_url with
  | .error _ => false
  | .ok pts => pts.length > 0

/-- The PointStruct built by QdrantVectorSink.write_batch for one document:
`PointStruct(id=doc.doc_id, vector=doc.embeddings, payload=doc.metadata)`. -/
def pointOf (d : EmbeddedDoc) : Point :=
  { id := d.doc_id, vector := d.embeddings, payload := d.metadata }

/-- Staging loop of QdrantVectorSink.write_batch: for each document in order,
skip it when article_exists(metadata["url"]) and append its PointStruct
otherwise. -/
def writeBatchGo (c : QdrantClientModel) : List EmbeddedDoc → List Point → List Point
  | [], pts => pts
  | d :: ds, pts =>
    writeBatchGo c ds
      (if article_exists c d.metadata.url then pts else pts ++ [pointOf d])

/-- The points staged by one QdrantVectorSink.write_batch call. -/
def writeBatchPoints (c : QdrantClientModel) (documents : List EmbeddedDoc) :
    List Point :=
  writeBatchGo c documents []

/-- qdrant upsert semantics (insert-or-overwrite keyed by point id), applied
point by point. -/
def upsertPoints (store pts : List Point) : List Point :=
  pts.foldl
    (fun st p =>
      if st.any (fun q => q.id = p.id) then
        st.map (fun q => if q.id = p.id then p else q)
      else st ++ [p])
    store

/-- QdrantVectorSink.write_batch: classify the batch, then one bulk upsert of
the staged points (skipped when nothing was staged). -/
def write_batch (c : QdrantClientModel) (documents : List EmbeddedDoc) :
    QdrantClientModel :=
  let pts := writeBatchPoints c documents
  if pts.isEmpty then c else { c with store := upsertPoints c.store pts }

/-! ## news_loader.py ArticleFetcher._remove_duplicates -/

/-- Loop of _remove_duplicates: `seen_urls` (a set, modelled as the list of
urls added so far) and the accumulated unique articles. -/
def removeDuplicatesAux (seen : List String) (unique : List CommonDoc) :
    List CommonDoc → List CommonDoc
  | [] => unique
  | a :: rest =>
    if a.url ∈ seen then removeDuplicatesAux seen unique rest
    else removeDuplicatesAux (seen ++ [a.url]) (unique ++ [a]) rest

/-- ArticleFetcher._remove_duplicates. -/
def remove_duplicates (articles : List CommonDoc) : List CommonDoc :=
  removeDuplicatesAux [] [] articles

/-- First-occurrence selection as the claim about _remove_duplicates words
it: keep the head, delete every later article carrying the head's url,
recurse on the rest.  (Spec-side characterization, compared against the
implementation in the C10 theorem.) -/
def firstOccurrenceFilter : List CommonDoc → List CommonDoc
  | [] => []
  | a :: rest =>
    a :: firstOccurrenceFilter (rest.filter (fun b => b.url ≠ a.url))
termination_by l => l.length
decreasing_by
  simp only [List.length_cons]
  exact Nat.lt_succ_of_le (List.length_filter_le _ _)

/-! ## Auxiliary predicates and concrete instances used in the theorems -/

/-- Whether the text is free of two adjacent spaces. -/
def noDoubleSpace : List Char → Bool
  | [] => true
  | [_] => true
  | c :: d :: rest => !(c = ' ' && d = ' ') && noDoubleSpace (d :: rest)

/-- Whether the text neither starts nor ends with Python whitespace. -/
def noEdgeSpace (l : List Char) : Bool :=
  (l.head?.all fun c => !isPySpace c) && (l.getLast?.all fun c => !isPySpace c)

/-- Sample metadata shared by the concrete documents below. -/
def exMeta : Metadata :=
  { title := "hello", url := "https://x/a", published_at := "2024-01-01 00:00:00"
  , source_name := "src", image_url := none }

/-- Two chunks of one parent article: same doc_id, distinct chunk_ids, same
source url. -/
def exDocA : EmbeddedDoc :=
  { doc_id := "art1", chunk_id := "c1", full_raw_text := "hello.world"
  , text := "alpha", embeddings := [], metadata := exMeta }

/-- Second chunk of the same parent article as exDocA. -/
def exDocB : EmbeddedDoc :=
  { doc_id := "art1", chunk_id := "c2", full_raw_text := "hello.world"
  , text := "beta", embeddings := [], metadata := exMeta }

/-- A healthy client over an empty collection. -/
def emptyClient : QdrantClientModel :=
  { store := [], queryError := fun _ => false }

/-- A client whose existence query raises for the sample url. -/
def failingClient : QdrantClientModel :=
  { store := [], queryError := fun u => u == "https://x/a" }

/-- A raw article as CommonDocument, whose refinement has full_text
"hello.world". -/
def exCommon : CommonDoc :=
  { article_id := "a1", title := "hello", url := "https://x/a"
  , published_at := "2024-01-01 00:00:00", source_name := "src"
  , image_url := none, description := "world", content := "body" }

/-- Identity stand-in for the md5 hexdigest in concrete runs. -/
def md5id : String → String := fun s => s

/-- Concrete tokenizer for runs: one token per character. -/
def tokLen : List Char → Nat := fun l => l.length

/-- A model run whose inference always fails, so TextEmbedder.__call__
returns the empty list. -/
def failRun : String → ModelOutcome := fun _ => ModelOutcome.inferenceError

/-- The chunked document that chunkStage produces from exCommon. -/
def exChunked : ChunkedDoc :=
  { doc_id := "a1", chunk_id := "hello.world", full_raw_text := "hello.world"
  , text := "hello.world", metadata := exMeta }

/-! ## Sink lemmas -/

/-- The staging loop never drops a point already staged. -/
theorem writeBatchGo_mono (c : QdrantClientModel) (docs : List EmbeddedDoc)
    (pts : List Point) (p : Point) (h : p ∈ pts) : p ∈ writeBatchGo c docs pts := by
  induction docs generalizing pts with
  | nil => simpa [writeBatchGo] using h
  | cons d ds ih =>
    simp only [writeBatchGo]
    apply ih
    cases hx : article_exists c d.metadata.url <;> simp [hx, h]

/-- A document whose existence check is negative gets its point staged. -/
theorem writeBatchGo_mem (c : QdrantClientModel) (d : EmbeddedDoc)
    (docs : List EmbeddedDoc) (hd : d ∈ docs)
    (hex : article_exists c d.metadata.url = false) (pts : List Point) :
    pointOf d ∈ writeBatchGo c docs pts := by
  induction docs generalizing pts with
  | nil => cases hd
  | cons e es ih =>
    rcases List.mem_cons.mp hd with rfl | hmem
    · simp only [writeBatchGo, hex]
      exact writeBatchGo_mono c es _ _ (by simp)
    · simp only [writeBatchGo]
      exact ih hmem _

/-! ## Claim C1 -/

/-- C1 (code_bug evaluation): with an empty healthy store, a batch holding two
chunks of the same parent article stages two points whose storage ids are both
the parent doc_id (not the chunk_ids, which differ), and the bulk upsert
therefore leaves a single stored point — the second chunk overwrote the
first.  The claim says each staged point is keyed by chunk_id, yielding two
distinct points. -/
theorem C1_write_batch_keys_points_by_doc_id :
    (writeBatchPoints emptyClient [exDocA, exDocB]).map Point.id = ["art1", "art1"] ∧
    exDocA.chunk_id ≠ exDocB.chunk_id ∧
    (write_batch emptyClient [exDocA, exDocB]).store.map Point.id = ["art1"] :=
  ⟨rfl, by decide, rfl⟩

/-! ## Claim C4 -/

/-- C4 counterexample: a partition constructed at time 0 (no resume state)
polls at time 5 and the fetch succeeds with a non-empty batch, yet the
persisted cursor (snapshot) still reads 0, not the poll time 5 — the claim
that the cursor advances to "now" on a successful poll is false. -/
theorem C4_counterexample :
    ((NewsStreamSource.init none 0).next_batch ["a1"]).1 = ["a1"] ∧
    ((NewsStreamSource.init none 0).next_batch ["a1"]).2.snapshot ≠ 5 :=
  ⟨rfl, by decide⟩

/-- C4 amended: the cursor never advances at all — next_batch leaves the
state untouched, so snapshot always returns the construction-time value
(resume state if present, otherwise the construction instant), whatever polls
happened. -/
theorem C4_cursor_never_advances (s : NewsStreamSource) (fetched : List String) :
    (s.next_batch fetched).2.snapshot = s.snapshot ∧
    ∀ resume constructionNow,
      (NewsStreamSource.init resume constructionNow).snapshot =
        resume.getD constructionNow :=
  ⟨rfl, fun _ _ => rfl⟩

/-! ## Claim C5 -/

/-- C5 counterexample: a parse failure occurring at 2024-06-01 12:00:00
(module loaded at 2024-01-01 00:00:00) returns the module-load constant
CURRENT_TIMESTAMP, not the time at which the failure occurs, contradicting
the claim's "the UTC time at which the failure occurs". -/
theorem C5_counterexample :
    clean_date_field ⟨2024, 1, 1, 0, 0, 0⟩ ParseOutcome.err =
      CURRENT_TIMESTAMP ⟨2024, 1, 1, 0, 0, 0⟩ ∧
    clean_date_field ⟨2024, 1, 1, 0, 0, 0⟩ ParseOutcome.err ≠
      strftimeYmdHMS ⟨2024, 6, 1, 12, 0, 0⟩ :=
  ⟨rfl, by decide⟩

/-- C5 amended: clean_date_field never raises (it is total); on success it
returns the parsed date formatted "%Y-%m-%d %H:%M:%S" (in particular the
datetime dateutil parses from "March 3, 2024" yields "2024-03-03 00:00:00"),
and on parse failure it returns CURRENT_TIMESTAMP — the timestamp taken once
at module load, not at the moment of the failure. -/
theorem C5_clean_date_field_amended (moduleLoadUtc : PyDateTime)
    (parsed : ParseOutcome) :
    clean_date_field moduleLoadUtc (ParseOutcome.ok ⟨2024, 3, 3, 0, 0, 0⟩) =
      "2024-03-03 00:00:00" ∧
    (∀ d, parsed = ParseOutcome.ok d →
      clean_date_field moduleLoadUtc parsed = strftimeYmdHMS d) ∧
    (parsed = ParseOutcome.err →
      clean_date_field moduleLoadUtc parsed = CURRENT_TIMESTAMP moduleLoadUtc) :=
  ⟨rfl, fun d hd => by rw [hd]; rfl, fun h => by rw [h]; rfl⟩

/-- C5 witness: the amended theorem applied at a concrete module-load time
and a concrete failing parse. -/
theorem C5_witness :
    clean_date_field ⟨2024, 1, 1, 0, 0, 0⟩ ParseOutcome.err =
      CURRENT_TIMESTAMP ⟨2024, 1, 1, 0, 0, 0⟩ :=
  (C5_clean_date_field_amended ⟨2024, 1, 1, 0, 0, 0⟩ ParseOutcome.err).2.2 rfl

/-! ## Claim C8 -/

/-- C8: when the existence query raises for a document's url, article_exists
returns False (the exception is swallowed inside the sink) and the document is
treated as not found: its point is staged for the bulk insertion. -/
theorem C8_existence_check_fails_open (c : QdrantClientModel)
    (docs : List EmbeddedDoc) (d : EmbeddedDoc) (hmem : d ∈ docs)
    (herr : c.queryError d.metadata.url = true) :
    article_exists c d.metadata.url = false ∧
    pointOf d ∈ writeBatchPoints c docs := by
  have hex : article_exists c d.metadata.url = false := by
    simp [article_exists, query_points, herr]
  exact ⟨hex, writeBatchGo_mem c d docs hmem hex []⟩

/-- C8 witness: a client raising on the sample url still stages the sample
document. -/
theorem C8_witness :
    article_exists failingClient exDocA.metadata.url = false ∧
    pointOf exDocA ∈ writeBatchPoints failingClient [exDocA] :=
  C8_existence_check_fails_open failingClient [exDocA] exDocA
    (List.mem_singleton.mpr rfl) (by decide)

/-! ## Claim C9 -/

/-- C9: the duplicate check consults only the store.  For a two-document
batch sharing one url that no stored point carries (and a healthy query),
both documents are staged, in order, into the single bulk upsert — in-batch
duplicates are not deduplicated. -/
theorem C9_in_batch_duplicates_not_deduplicated (c : QdrantClientModel)
    (d1 d2 : EmbeddedDoc) (hurl : d2.metadata.url = d1.metadata.url)
    (herr : c.queryError d1.metadata.url = false)
    (hstore : ∀ p ∈ c.store, p.payload.url ≠ d1.metadata.url) :
    writeBatchPoints c [d1, d2] = [pointOf d1, pointOf d2] := by
  have hfilter : c.store.filter (fun p => p.payload.url = d1.metadata.url) = [] := by
    refine List.filter_eq_nil_iff.mpr ?_
    intro p hp
    simpa using hstore p hp
  have hex : article_exists c d1.metadata.url = false := by
    simp [article_exists, query_points, herr, hfilter]
  simp [writeBatchPoints, writeBatchGo, hurl, hex]

/-- C9 witness: both sample chunks (same url) are staged against the empty
store. -/
theorem C9_witness :
    writeBatchPoints emptyClient [exDocA, exDocB] = [pointOf exDocA, pointOf exDocB] :=
  C9_in_batch_duplicates_not_deduplicated emptyClient exDocA exDocB rfl rfl
    (fun p hp => absurd hp (by simp [emptyClient]))

/-! ## Claim C2 -/

/-- C2 counterexample: a document whose single chunk's inference fails
produces an EmbeddedDocument with empty embeddings, and that document is in
the batch the flow hands to the sink — contradicting the claim that such
documents never reach write_batch. -/
theorem C2_counterexample :
    ∃ ds, flowSinkInput md5id tokLen 512 failRun [exCommon] = Except.ok ds ∧
      ∃ d ∈ ds, d.embeddings = ([] : List Float) ∧ d.text ≠ "" := by
  refine ⟨_, rfl, ?_⟩
  exact ⟨_, List.mem_singleton.mpr rfl, rfl, by decide⟩

/-- C2 amended: the flow has no filtering stage between the embed map and the
sink output — every chunked document is forwarded to write_batch as an
EmbeddedDocument, embeddings empty or not. -/
theorem C2_no_filter_between_embed_and_sink (md5hex : String → String)
    (tk : List Char → Nat) (maxInputSize : Nat) (modelRun : String → ModelOutcome)
    (inp : List CommonDoc) (cs : List ChunkedDoc) (c : ChunkedDoc)
    (hchunk : chunkStage md5hex tk maxInputSize inp = Except.ok cs)
    (hc : c ∈ cs) :
    ∃ ds, flowSinkInput md5hex tk maxInputSize modelRun inp = Except.ok ds ∧
      EmbeddedDoc.from_chunked (textEmbedderCall modelRun) c ∈ ds := by
  refine ⟨cs.map (EmbeddedDoc.from_chunked (textEmbedderCall modelRun)), ?_, ?_⟩
  · simp only [flowSinkInput, hchunk]
  · exact List.mem_map_of_mem _ hc

/-- C2 witness: the amended theorem applied to the concrete failing run. -/
theorem C2_witness :
    ∃ ds, flowSinkInput md5id tokLen 512 failRun [exCommon] = Except.ok ds ∧
      EmbeddedDoc.from_chunked (textEmbedderCall failRun) exChunked ∈ ds :=
  C2_no_filter_between_embed_and_sink md5id tokLen 512 failRun [exCommon]
    [exChunked] exChunked rfl (List.mem_singleton.mpr rfl)

/-! ## Claim C10 -/

/-- The accumulator of the dedup loop is a pure prefix of its result. -/
theorem removeDuplicatesAux_acc (l : List CommonDoc) :
    ∀ seen acc, removeDuplicatesAux seen acc l = acc ++ removeDuplicatesAux seen [] l := by
  induction l with
  | nil => intro seen acc; simp [removeDuplicatesAux]
  | cons a rest ih =>
    intro seen acc
    by_cases h : a.url ∈ seen
    · simp only [removeDuplicatesAux, if_pos h]
      exact ih seen acc
    · simp only [removeDuplicatesAux, if_neg h]
      rw [ih _ (acc ++ [a]), ih _ ([] ++ [a])]
      simp

/-- The dedup loop run with a seen-set equals the first-occurrence selection
on the articles whose url is not yet seen. -/
theorem removeDuplicatesAux_eq_filterSpec (l : List CommonDoc) :
    ∀ seen, removeDuplicatesAux seen [] l =
      firstOccurrenceFilter (l.filter (fun b => b.url ∉ seen)) := by
  induction l with
  | nil => intro seen; simp [removeDuplicatesAux, firstOccurrenceFilter]
  | cons a rest ih =>
    intro seen
    by_cases h : a.url ∈ seen
    · have h2 : (a :: rest).filter (fun b => b.url ∉ seen) =
          rest.filter (fun b => b.url ∉ seen) := by
        simp [List.filter_cons, h]
      rw [h2, ← ih seen]
      simp [removeDuplicatesAux, h]
    · have h2 : (a :: rest).filter (fun b => b.url ∉ seen) =
          a :: rest.filter (fun b => b.url ∉ seen) := by
        simp [List.filter_cons, h]
      rw [h2, firstOccurrenceFilter]
      have h3 : removeDuplicatesAux seen [] (a :: rest) =
          [a] ++ removeDuplicatesAux (seen ++ [a.url]) [] rest := by
        rw [show removeDuplicatesAux seen [] (a :: rest) =
            removeDuplicatesAux (seen ++ [a.url]) ([] ++ [a]) rest from by
          simp [removeDuplicatesAux, h]]
        rw [removeDuplicatesAux_acc rest (seen ++ [a.url]) ([] ++ [a])]
        simp
      rw [h3, ih (seen ++ [a.url])]
      have h4 : (rest.filter (fun b => b.url ∉ seen)).filter
            (fun b => b.url ≠ a.url) =
          rest.filter (fun b => b.url ∉ seen ++ [a.url]) := by
        rw [List.filter_filter]
        refine List.filter_congr ?_
        intro b _
        by_cases h5 : b.url ∈ seen <;> by_cases h6 : b.url = a.url <;>
          simp [h5, h6]
      rw [← h4]
      simp

/-- The first-occurrence selection is a subsequence of its input. -/
theorem firstOccurrenceFilter_sublist (l : List CommonDoc) :
    (firstOccurrenceFilter l).Sublist l := by
  induction l using firstOccurrenceFilter.induct with
  | case1 => simp [firstOccurrenceFilter]
  | case2 a rest ih =>
    rw [firstOccurrenceFilter]
    exact List.Sublist.cons₂ a (ih.trans (List.filter_sublist rest))

/-- No two articles of the first-occurrence selection share a url. -/
theorem firstOccurrenceFilter_pairwise (l : List CommonDoc) :
    (firstOccurrenceFilter l).Pairwise (fun a b => a.url ≠ b.url) := by
  induction l using firstOccurrenceFilter.induct with
  | case1 => simp [firstOccurrenceFilter]
  | case2 a rest ih =>
    rw [firstOccurrenceFilter]
    refine List.Pairwise.cons ?_ ih
    intro b hb
    have hb2 : b ∈ rest.filter (fun x => x.url ≠ a.url) :=
      (firstOccurrenceFilter_sublist _).subset hb
    have hb3 := List.of_mem_filter hb2
    simp only [decide_not, Bool.not_eq_true', decide_eq_false_iff_not] at hb3
    exact fun hEq => hb3 hEq.symm

/-- C10: _remove_duplicates keeps exactly the first occurrence of each url in
original order — it equals the first-occurrence selection, is a subsequence
of the input (so every kept article occurs in the input, in input order), and
its elements have pairwise distinct urls. -/
theorem C10_remove_duplicates_first_occurrences (l : List CommonDoc) :
    remove_duplicates l = firstOccurrenceFilter l ∧
    (remove_duplicates l).Sublist l ∧
    (remove_duplicates l).Pairwise (fun a b => a.url ≠ b.url) := by
  have h : remove_duplicates l = firstOccurrenceFilter l := by
    unfold remove_duplicates
    rw [removeDuplicatesAux_eq_filterSpec]
    congr 1
    refine List.filter_eq_self.mpr ?_
    intro a _
    simp
  refine ⟨h, ?_, ?_⟩
  · rw [h]; exact firstOccurrenceFilter_sublist l
  · rw [h]; exact firstOccurrenceFilter_pairwise l

/-! ## Claim C3 -/

/-- C3 counterexample: the punctuation-only title "!!!" is truthy, so the
validator hands it to clean_full, which strips it to the empty string — the
field ends up empty, not the "N/A" sentinel, refuting the claimed non-empty
invariant for inputs whose cleaned form is empty. -/
theorem C3_counterexample :
    clean_text_fields (some "!!!") = "" ∧ clean_text_fields (some "!!!") ≠ "N/A" :=
  ⟨by decide, by decide⟩

/-- C3 amended: the sentinel is substituted exactly when the raw field is
absent or empty before cleaning (Python falsiness); any other input goes
through clean_full unconditionally, whose result — possibly empty — is stored
as the field value. -/
theorem C3_clean_text_fields_amended (value : Option String) :
    (value = none → clean_text_fields value = "N/A") ∧
    (value = some "" → clean_text_fields value = "N/A") ∧
    (∀ s, value = some s → s ≠ "" → clean_text_fields value = cleanFullStr s) := by
  refine ⟨fun h => by rw [h]; rfl, fun h => by rw [h]; rfl, fun s hs hne => ?_⟩
  rw [hs]
  simp [clean_text_fields, hne]

/-- C3 witness: the amended theorem applied at a concrete non-empty field. -/
theorem C3_witness : clean_text_fields (some "abc") = cleanFullStr "abc" :=
  (C3_clean_text_fields_amended (some "abc")).2.2 "abc" rfl (by decide)

/-! ## Claim C6: character lemmas -/

/-- Char.ofNat at a valid scalar value round-trips through toNat. -/
theorem toNat_ofNat_valid (n : Nat) (h : n.isValidChar) : (Char.ofNat n).toNat = n := by
  rw [Char.ofNat, dif_pos h]
  rfl

/-- toLower fixes every character that is not an ASCII capital. -/
theorem toLower_eq_self {c : Char} (h : ¬(65 ≤ c.toNat ∧ c.toNat ≤ 90)) :
    c.toLower = c := by
  unfold Char.toLower
  exact if_neg h

/-- toLower never yields an ASCII capital. -/
theorem toLower_not_upper (c : Char) : ¬(65 ≤ c.toLower.toNat ∧ c.toLower.toNat ≤ 90) := by
  unfold Char.toLower
  by_cases h : 65 ≤ c.toNat ∧ c.toNat ≤ 90
  · rw [if_pos h]
    have hv : (c.toNat + 32).isValidChar := Or.inl (by omega)
    rw [toNat_ofNat_valid _ hv]
    omega
  · rw [if_neg h]
    exact h

/-! ## Claim C6: membership propagation through the cleaning stages -/

/-- pyStripLeft only drops characters. -/
theorem mem_pyStripLeft {c : Char} : ∀ {l : List Char}, c ∈ pyStripLeft l → c ∈ l := by
  intro l
  induction l with
  | nil => simp [pyStripLeft]
  | cons d ds ih =>
    intro h
    simp only [pyStripLeft] at h
    split at h
    · exact List.mem_cons_of_mem _ (ih h)
    · exact h

/-- pyStrip only drops characters. -/
theorem mem_pyStrip {c : Char} {l : List Char} (h : c ∈ pyStrip l) : c ∈ l := by
  unfold pyStrip at h
  have h1 := mem_pyStripLeft (List.mem_reverse.mp h)
  exact mem_pyStripLeft (List.mem_reverse.mp h1)

/-- Space collapsing only keeps characters of the input. -/
theorem mem_collapseGo {c : Char} : ∀ {l : List Char} {b : Bool},
    c ∈ collapseGo b l → c ∈ l := by
  intro l
  induction l with
  | nil => intro b h; simp [collapseGo] at h
  | cons d ds ih =>
    intro b h
    simp only [collapseGo] at h
    split at h
    · rename_i hd
      split at h
      · exact List.mem_cons_of_mem _ (ih h)
      · rcases List.mem_cons.mp h with rfl | h2
        · exact hd ▸ List.mem_cons_self _ _
        · exact List.mem_cons_of_mem _ (ih h2)
    · rcases List.mem_cons.mp h with rfl | h2
      · exact List.mem_cons_self _ _
      · exact List.mem_cons_of_mem _ (ih h2)

/-- The newline/nbsp substitution leaves no newline and no nbsp behind. -/
theorem subNbspNewline_no_nl {c : Char} {l : List Char} (h : c ∈ subNbspNewline l) :
    c ≠ '\n' ∧ c ≠ '\xa0' := by
  unfold subNbspNewline at h
  rcases List.mem_map.mp h with ⟨d, -, rfl⟩
  split
  · exact ⟨by decide, by decide⟩
  · rename_i hd
    rw [Bool.or_eq_true, not_or] at hd
    push_neg at hd
    rcases hd with ⟨h1, h2⟩
    exact ⟨by simpa using h2, by simpa using h1⟩

/-- Characters of the newline/nbsp substitution are spaces or input characters. -/
theorem mem_subNbsp {c : Char} {l : List Char} (h : c ∈ subNbspNewline l) :
    c = ' ' ∨ c ∈ l := by
  unfold subNbspNewline at h
  rcases List.mem_map.mp h with ⟨d, hd, rfl⟩
  split
  · exact Or.inl rfl
  · exact Or.inr hd

/-- Characters of the dash substitution are spaces or input characters. -/
theorem mem_dashMap {c : Char} {l : List Char}
    (h : c ∈ l.map (fun c => if isDashChar c then ' ' else c)) : c = ' ' ∨ c ∈ l := by
  rcases List.mem_map.mp h with ⟨d, hd, rfl⟩
  split
  · exact Or.inl rfl
  · exact Or.inr hd

/-- clean_bullets only drops characters. -/
theorem mem_clean_bullets {c : Char} {l : List Char} (h : c ∈ clean_bullets l) :
    c ∈ l := by
  cases l with
  | nil => simp [clean_bullets] at h
  | cons d ds =>
    simp only [clean_bullets] at h
    split at h
    · exact List.mem_cons_of_mem _ (mem_pyStrip h)
    · exact h

/-- Lowercasing yields no ASCII capital. -/
theorem pyLower_not_upper {c : Char} {l : List Char} (h : c ∈ pyLower l) :
    ¬(65 ≤ c.toNat ∧ c.toNat ≤ 90) := by
  rcases List.mem_map.mp h with ⟨d, -, rfl⟩
  exact toLower_not_upper d

/-- No character of a cleaned text is an ASCII capital. -/
theorem clean_not_upper {c : Char} {l : List Char} (h : c ∈ clean l) :
    ¬(65 ≤ c.toNat ∧ c.toNat ≤ 90) := by
  unfold clean at h
  have h1 := mem_clean_bullets (mem_pyStrip h)
  unfold clean_extra_whitespace collapseSpaces at h1
  have h2 := mem_collapseGo (mem_pyStrip h1)
  rcases mem_subNbsp h2 with rfl | h3
  · decide
  · unfold clean_dashes at h3
    rcases mem_dashMap (mem_pyStrip h3) with rfl | h4
    · decide
    · exact pyLower_not_upper h4

/-- No character of a cleaned text is a newline or an nbsp. -/
theorem clean_no_nl {c : Char} {l : List Char} (h : c ∈ clean l) :
    c ≠ '\n' ∧ c ≠ '\xa0' := by
  unfold clean at h
  have h1 := mem_clean_bullets (mem_pyStrip h)
  unfold clean_extra_whitespace collapseSpaces at h1
  exact subNbspNewline_no_nl (mem_collapseGo (mem_pyStrip h1))

/-- A character surviving pyReplaceGo came from the text or the replacement. -/
theorem mem_pyReplaceGo {c : Char} {pat rep : List Char} :
    ∀ {fuel : Nat} {l : List Char}, c ∈ pyReplaceGo pat rep fuel l → c ∈ l ∨ c ∈ rep := by
  intro fuel
  induction fuel with
  | zero =>
    intro l h
    cases l with
    | nil => simp [pyReplaceGo] at h
    | cons d ds => exact Or.inl h
  | succ n ih =>
    intro l h
    cases l with
    | nil => simp [pyReplaceGo] at h
    | cons d ds =>
      simp only [pyReplaceGo] at h
      split at h
      · rcases List.mem_append.mp h with h1 | h1
        · exact Or.inr h1
        · rcases ih h1 with h2 | h2
          · exact Or.inl (List.mem_cons_of_mem _ (List.drop_subset _ _ h2))
          · exact Or.inr h2
      · rcases List.mem_cons.mp h with rfl | h1
        · exact Or.inl (List.mem_cons_self _ _)
        · rcases ih h1 with h2 | h2
          · exact Or.inl (List.mem_cons_of_mem _ h2)
          · exact Or.inr h2

/-- A character surviving pyReplace came from the text or the replacement. -/
theorem mem_pyReplace {c : Char} {pat rep l : List Char}
    (h : c ∈ pyReplace pat rep l) : c ∈ l ∨ c ∈ rep := by
  unfold pyReplace at h
  exact mem_pyReplaceGo h

/-- A character surviving a fold of pyReplace calls came from the text or
from one of the tabled replacements. -/
theorem mem_quotesFold {c : Char} :
    ∀ (table : List (List Char × List Char)) (l : List Char),
      c ∈ table.foldl (fun acc pr => pyReplace pr.1 pr.2 acc) l →
      c ∈ l ∨ ∃ pr ∈ table, c ∈ pr.2 := by
  intro table
  induction table with
  | nil => intro l h; exact Or.inl h
  | cons pr prs ih =>
    intro l h
    simp only [List.foldl_cons] at h
    rcases ih _ h with h1 | h1
    · rcases mem_pyReplace h1 with h2 | h2
      · exact Or.inl h2
      · exact Or.inr ⟨pr, List.mem_cons_self _ _, h2⟩
    · rcases h1 with ⟨q, hq, hc⟩
      exact Or.inr ⟨q, List.mem_cons_of_mem _ hq, hc⟩

/-- Character invariant of clean_full output: ASCII, not punctuation, not an
ASCII capital, no newline, no nbsp. -/
theorem clean_full_inv {c : Char} {l : List Char} (h : c ∈ clean_full l) :
    c.toNat < 128 ∧ pyPunctuation.contains c = false ∧
    ¬(65 ≤ c.toNat ∧ c.toNat ≤ 90) ∧ c ≠ '\n' ∧ c ≠ '\xa0' := by
  unfold clean_full remove_punctuation clean_non_ascii_chars at h
  have hpunct0 := List.of_mem_filter h
  have h1 := List.mem_of_mem_filter h
  have hascii0 := List.of_mem_filter h1
  have h2 := List.mem_of_mem_filter h1
  have hpunct : pyPunctuation.contains c = false := by simpa using hpunct0
  have hascii : c.toNat < 128 := by simpa using hascii0
  unfold replace_unicode_quotes at h2
  rcases mem_quotesFold quoteTable _ h2 with h3 | ⟨pr, hpr, hcrep⟩
  · exact ⟨hascii, hpunct, clean_not_upper h3, clean_no_nl h3⟩
  · have hrep : ∀ pr ∈ quoteTable, ∀ x ∈ pr.2,
        ¬(65 ≤ x.toNat ∧ x.toNat ≤ 90) ∧ x ≠ '\n' ∧ x ≠ '\xa0' := by decide
    exact ⟨hascii, hpunct, hrep pr hpr c hcrep⟩

/-! ## Claim C6: fixed-point lemmas for the second pass -/

/-- pyStripLeft fixes a text whose first character is not whitespace. -/
theorem pyStripLeft_id {l : List Char}
    (h : ∀ c, l.head? = some c → isPySpace c = false) : pyStripLeft l = l := by
  cases l with
  | nil => rfl
  | cons d ds => simp [pyStripLeft, h d rfl]

/-- pyStrip fixes a text with no whitespace at either edge. -/
theorem pyStrip_id {l : List Char} (h : noEdgeSpace l = true) : pyStrip l = l := by
  unfold noEdgeSpace at h
  rw [Bool.and_eq_true] at h
  have hhead : ∀ c, l.head? = some c → isPySpace c = false := by
    intro c hc
    have := h.1
    rw [hc] at this
    simpa using this
  have hlast : ∀ c, l.reverse.head? = some c → isPySpace c = false := by
    intro c hc
    rw [List.head?_reverse] at hc
    have := h.2
    rw [hc] at this
    simpa using this
  unfold pyStrip
  rw [pyStripLeft_id hhead, pyStripLeft_id hlast, List.reverse_reverse]

/-- noDoubleSpace restricts to the tail. -/
theorem noDoubleSpace_tail {d : Char} {ds : List Char}
    (h : noDoubleSpace (d :: ds) = true) : noDoubleSpace ds = true := by
  cases ds with
  | nil => rfl
  | cons e es =>
    simp only [noDoubleSpace, Bool.and_eq_true] at h
    exact h.2

/-- In a text with no doubled space, a space is not followed by a space. -/
theorem noDoubleSpace_head {e : Char} {es : List Char}
    (h : noDoubleSpace (' ' :: e :: es) = true) : e ≠ ' ' := by
  simp only [noDoubleSpace, Bool.and_eq_true] at h
  intro he
  subst he
  simp at h

/-- Space collapsing fixes a text with no doubled space (with the previous
character not a space whenever the flag is set). -/
theorem collapseGo_id : ∀ {l : List Char} {b : Bool}, noDoubleSpace l = true →
    (b = true → l.head? ≠ some ' ') → collapseGo b l = l := by
  intro l
  induction l with
  | nil => intros; rfl
  | cons d ds ih =>
    intro b hnd hb
    simp only [collapseGo]
    by_cases hd : d = ' '
    · subst hd
      have hbf : b = false := by
        cases b
        · rfl
        · exact (hb rfl rfl).elim
      subst hbf
      rw [if_pos rfl, if_neg (by simp)]
      have htail : collapseGo true ds = ds := by
        refine ih (noDoubleSpace_tail hnd) ?_
        intro _ hds
        cases ds with
        | nil => simp at hds
        | cons e es =>
          have he : e = ' ' := by simpa using hds
          exact noDoubleSpace_head hnd he
      rw [htail]
    · rw [if_neg hd]
      rw [ih (noDoubleSpace_tail hnd) (by simp)]

/-- The dash substitution fixes a dash-free text. -/
theorem dashMap_id {l : List Char} (h : ∀ c ∈ l, isDashChar c = false) :
    l.map (fun c => if isDashChar c then ' ' else c) = l := by
  induction l with
  | nil => rfl
  | cons d ds ih =>
    rw [List.map_cons, ih (fun c hc => h c (List.mem_cons_of_mem _ hc))]
    simp [h d (List.mem_cons_self _ _)]

/-- The newline/nbsp substitution fixes a text without those characters. -/
theorem subNbsp_id {l : List Char} (h : ∀ c ∈ l, c ≠ '\n' ∧ c ≠ '\xa0') :
    subNbspNewline l = l := by
  unfold subNbspNewline
  induction l with
  | nil => rfl
  | cons d ds ih =>
    rw [List.map_cons, ih (fun c hc => h c (List.mem_cons_of_mem _ hc))]
    have hd := h d (List.mem_cons_self _ _)
    have : (d = '\xa0' || d = '\n') = false := by
      simp [hd.1, hd.2]
    simp [this]

/-- Lowercasing fixes a text with no ASCII capital. -/
theorem pyLower_id {l : List Char} (h : ∀ c ∈ l, ¬(65 ≤ c.toNat ∧ c.toNat ≤ 90)) :
    pyLower l = l := by
  unfold pyLower
  induction l with
  | nil => rfl
  | cons d ds ih =>
    rw [List.map_cons, ih (fun c hc => h c (List.mem_cons_of_mem _ hc)),
      toLower_eq_self (h d (List.mem_cons_self _ _))]

/-- clean_bullets fixes a text not starting with a bullet. -/
theorem clean_bullets_id {l : List Char}
    (h : ∀ c, l.head? = some c → bulletChars.contains c = false) :
    clean_bullets l = l := by
  cases l with
  | nil => rfl
  | cons d ds =>
    unfold clean_bullets
    exact if_neg (by rw [h d rfl]; simp)

/-- pyReplaceGo fixes a text not containing the pattern head. -/
theorem pyReplaceGo_id (p : Char) (ps rep : List Char) :
    ∀ (fuel : Nat) (l : List Char), p ∉ l → pyReplaceGo (p :: ps) rep fuel l = l := by
  intro fuel
  induction fuel with
  | zero =>
    intro l _
    cases l <;> rfl
  | succ n ih =>
    intro l h
    cases l with
    | nil => rfl
    | cons d ds =>
      have hne : ¬((p :: ps) ≠ [] ∧ (p :: ps).isPrefixOf (d :: ds)) := by
        rintro ⟨-, hpre⟩
        simp only [List.isPrefixOf, Bool.and_eq_true, beq_iff_eq] at hpre
        exact h (hpre.1 ▸ List.mem_cons_self _ _)
      simp only [pyReplaceGo, if_neg hne]
      rw [ih ds (fun hm => h (List.mem_cons_of_mem _ hm))]

/-- A pyReplace fold leaves a text alone when every single call does. -/
theorem foldl_pyReplace_id {l : List Char} :
    ∀ (table : List (List Char × List Char)),
      (∀ pr ∈ table, pyReplace pr.1 pr.2 l = l) →
      table.foldl (fun acc pr => pyReplace pr.1 pr.2 acc) l = l := by
  intro table
  induction table with
  | nil => intro _; rfl
  | cons pr prs ih =>
    intro h
    simp only [List.foldl_cons, h pr (List.mem_cons_self _ _)]
    exact ih (fun q hq => h q (List.mem_cons_of_mem _ hq))

/-- replace_unicode_quotes fixes an all-ASCII punctuation-free text: every
pattern of the table starts with \x91-\x94, an ampersand or U+00E2. -/
theorem quotes_id {l : List Char}
    (h : ∀ c ∈ l, c.toNat < 128 ∧ pyPunctuation.contains c = false) :
    replace_unicode_quotes l = l := by
  unfold replace_unicode_quotes
  refine foldl_pyReplace_id quoteTable ?_
  intro pr hpr
  have hhead : pr.1 ≠ [] ∧
      (128 ≤ (pr.1.headD ' ').toNat ∨ pr.1.headD ' ' = '&') := by
    revert hpr
    have : ∀ q ∈ quoteTable, q.1 ≠ [] ∧
        (128 ≤ (q.1.headD ' ').toNat ∨ q.1.headD ' ' = '&') := by decide
    exact this pr
  rcases hq : pr.1 with _ | ⟨p, ps⟩
  · exact absurd hq hhead.1
  · rw [hq] at hhead
    simp only [List.headD_cons] at hhead
    unfold pyReplace
    refine pyReplaceGo_id p ps pr.2 l.length l ?_
    intro hmem
    rcases hhead.2 with hp | hp
    · have := (h p hmem).1
      omega
    · subst hp
      exact absurd (h _ hmem).2 (by decide)

/-- The second application of clean_full is the identity whenever the first
left no doubled space and no edge whitespace. -/
theorem clean_full_fixed {l : List Char}
    (h1 : noDoubleSpace (clean_full l) = true)
    (h2 : noEdgeSpace (clean_full l) = true) :
    clean_full (clean_full l) = clean_full l := by
  have hinv := fun c hc => @clean_full_inv c l hc
  generalize hyl : clean_full l = y at h1 h2 hinv
  have hL : pyLower y = y := pyLower_id (fun c hc => (hinv c hc).2.2.1)
  have hDm : y.map (fun c => if isDashChar c then ' ' else c) = y := by
    refine dashMap_id ?_
    intro c hc
    obtain ⟨ha, hpunct, -, -, -⟩ := hinv c hc
    have hd1 : c ≠ '-' := by
      intro he
      subst he
      exact absurd hpunct (by decide)
    have hd2 : c ≠ '–' := by
      intro he
      subst he
      simp at ha
    simp [isDashChar, hd1, hd2]
  have hD : clean_dashes y = y := by
    unfold clean_dashes
    rw [hDm, pyStrip_id h2]
  have hS : subNbspNewline y = y :=
    subNbsp_id (fun c hc => (hinv c hc).2.2.2)
  have hC : collapseSpaces y = y := by
    unfold collapseSpaces
    exact collapseGo_id h1 (by simp)
  have hE : clean_extra_whitespace y = y := by
    unfold clean_extra_whitespace
    rw [hS, hC, pyStrip_id h2]
  have hB : clean_bullets y = y := by
    refine clean_bullets_id ?_
    intro c hc
    have hcy : c ∈ y := by
      cases y with
      | nil => simp at hc
      | cons d ds =>
        have hdc : d = c := by simpa using hc
        rw [← hdc]
        exact List.mem_cons_self _ _
    obtain ⟨ha, hpunct, -, -, -⟩ := hinv c hcy
    by_contra hbc
    have hb : bulletChars.contains c = true := by
      cases hx : bulletChars.contains c
      · exact absurd hx hbc
      · rfl
    have hcb : c ∈ bulletChars := by
      simpa using hb
    have hall : ∀ x ∈ bulletChars, 128 ≤ x.toNat ∨ pyPunctuation.contains x = true := by
      decide
    rcases hall c hcb with hx | hx
    · omega
    · rw [hpunct] at hx
      cases hx
  have hClean : clean y = y := by
    unfold clean
    rw [hL, hD, hE, hB, pyStrip_id h2]
  have hQ : replace_unicode_quotes y = y :=
    quotes_id (fun c hc => ⟨(hinv c hc).1, (hinv c hc).2.1⟩)
  have hA : clean_non_ascii_chars y = y := by
    unfold clean_non_ascii_chars
    refine List.filter_eq_self.mpr ?_
    intro c hc
    simpa using (hinv c hc).1
  have hP : remove_punctuation y = y := by
    unfold remove_punctuation
    refine List.filter_eq_self.mpr ?_
    intro c hc
    simpa using (hinv c hc).2.1
  unfold clean_full
  rw [hClean, hQ, hA, hP]

/-! ## Claim C6: the claim theorems -/

/-- C6 counterexample: clean_full is not idempotent — removing the
punctuation of "a . b" leaves the doubled space "a  b", which a second
application collapses to "a b". -/
theorem C6_counterexample :
    cleanFullStr "a . b" = "a  b" ∧
    cleanFullStr (cleanFullStr "a . b") = "a b" ∧
    cleanFullStr (cleanFullStr "a . b") ≠ cleanFullStr "a . b" :=
  ⟨by decide, by decide, by decide⟩

/-- C6 amended: clean_full is idempotent on every input whose cleaned form
has no doubled space and no leading or trailing whitespace; the only failures
of idempotence are texts where punctuation/non-ASCII removal uncovers doubled
or edge whitespace, which only the second pass cleans. -/
theorem C6_clean_full_conditionally_idempotent (s : List Char)
    (h1 : noDoubleSpace (clean_full s) = true)
    (h2 : noEdgeSpace (clean_full s) = true) :
    clean_full (clean_full s) = clean_full s :=
  clean_full_fixed h1 h2

/-- C6 witness: the amended theorem applied to a concrete clean input. -/
theorem C6_witness :
    noDoubleSpace (clean_full "breaking news 42".data) = true ∧
    noEdgeSpace (clean_full "breaking news 42".data) = true ∧
    clean_full (clean_full "breaking news 42".data) = clean_full "breaking news 42".data :=
  ⟨by decide, by decide,
    C6_clean_full_conditionally_idempotent "breaking news 42".data (by decide) (by decide)⟩

/-! ## Claim C7: join/split lemmas -/

/-- Joining a head-extended first piece peels the extension off. -/
theorem sepJoin_head_append (sep u x : List Char) (xs : List (List Char)) :
    sepJoin sep ((u ++ x) :: xs) = u ++ sepJoin sep (x :: xs) := by
  cases xs with
  | nil => rfl
  | cons y rest => simp [sepJoin, List.append_assoc]

/-- Joining with the empty separator prepends the head to the joined tail. -/
theorem sepJoin_nil_cons (x : List Char) (xs : List (List Char)) :
    sepJoin [] (x :: xs) = x ++ sepJoin [] xs := by
  cases xs with
  | nil => simp [sepJoin]
  | cons y rest => simp [sepJoin]

/-- Empty pieces do not matter to an empty-separator join. -/
theorem sepJoin_nil_filter (L : List (List Char)) :
    sepJoin [] (L.filter (fun s => s ≠ [])) = sepJoin [] L := by
  induction L with
  | nil => rfl
  | cons x xs ih =>
    rw [List.filter_cons]
    by_cases hx : x = []
    · subst hx
      simp only [ne_eq, not_true_eq_false, decide_not]
      rw [sepJoin_nil_cons]
      simpa using ih
    · have : (decide ¬x = []) = true := by simp [hx]
      simp only [ne_eq, this, if_pos]
      rw [sepJoin_nil_cons, sepJoin_nil_cons, ih]

/-- The empty-separator join has the summed length of its pieces. -/
theorem sepJoin_nil_length (L : List (List Char)) :
    (sepJoin [] L).length = (L.map List.length).sum := by
  induction L with
  | nil => rfl
  | cons x xs ih =>
    rw [sepJoin_nil_cons, List.length_append, ih]
    simp

/-- The splitter loop never returns an empty list of pieces. -/
theorem splitOnSepGo_ne_nil (sep : List Char) :
    ∀ (fuel : Nat) (l : List Char), splitOnSepGo sep fuel l ≠ [] := by
  intro fuel
  induction fuel with
  | zero =>
    intro l
    cases l <;> simp [splitOnSepGo]
  | succ n ih =>
    intro l
    cases l with
    | nil => simp [splitOnSepGo]
    | cons c cs =>
      simp only [splitOnSepGo]
      split
      · simp
      · split <;> simp

/-- Rejoining the split pieces with the separator restores the text. -/
theorem splitOnSepGo_join (sep : List Char) :
    ∀ (fuel : Nat) (l : List Char), l.length ≤ fuel →
      sepJoin sep (splitOnSepGo sep fuel l) = l := by
  intro fuel
  induction fuel with
  | zero =>
    intro l hl
    have : l = [] := List.length_eq_zero.mp (Nat.le_zero.mp hl)
    subst this
    rfl
  | succ n ih =>
    intro l hl
    cases l with
    | nil => rfl
    | cons c cs =>
      simp only [splitOnSepGo]
      split
      · rename_i hcond
        obtain ⟨hne, hpre⟩ := hcond
        obtain ⟨t, ht⟩ := Iff.mp List.isPrefixOf_iff_prefix hpre
        have hslen : 1 ≤ sep.length := by
          cases sep with
          | nil => exact absurd rfl hne
          | cons a as => simp
        have hcs : cs = List.drop 1 (sep ++ t) := by rw [ht]; simp
        have hdrop : List.drop (sep.length - 1) cs = t := by
          rw [hcs, List.drop_drop]
          have : 1 + (sep.length - 1) = sep.length := by omega
          rw [this, List.drop_left]
        have htlen : t.length ≤ n := by
          have h1 : (sep ++ t).length = (c :: cs).length := by rw [ht]
          simp only [List.length_append, List.length_cons] at h1
          simp only [List.length_cons] at hl
          omega
        obtain ⟨p, ps, hps⟩ :
            ∃ p ps, splitOnSepGo sep n (List.drop (sep.length - 1) cs) = p :: ps := by
          cases hx : splitOnSepGo sep n (List.drop (sep.length - 1) cs) with
          | nil => exact absurd hx (splitOnSepGo_ne_nil sep n _)
          | cons p ps => exact ⟨p, ps, rfl⟩
        rw [hps]
        have hjoin : sepJoin sep (p :: ps) = t := by
          rw [← hps, hdrop]
          exact ih t htlen
        calc sepJoin sep ([] :: p :: ps)
            = [] ++ sep ++ sepJoin sep (p :: ps) := rfl
          _ = sep ++ t := by rw [hjoin]; simp
          _ = c :: cs := ht
      · obtain ⟨p, ps, hps⟩ : ∃ p ps, splitOnSepGo sep n cs = p :: ps := by
          cases hx : splitOnSepGo sep n cs with
          | nil => exact absurd hx (splitOnSepGo_ne_nil sep n cs)
          | cons p ps => exact ⟨p, ps, rfl⟩
        rw [hps]
        have hjoin : sepJoin sep (p :: ps) = cs := by
          rw [← hps]
          exact ih cs (by simpa using Nat.le_of_succ_le_succ (by simpa using hl))
        calc sepJoin sep ((c :: p) :: ps)
            = c :: sepJoin sep (p :: ps) := by
              cases ps with
              | nil => rfl
              | cons y rest => simp [sepJoin]
          _ = c :: cs := by rw [hjoin]

/-- re.split followed by str.join is the identity. -/
theorem splitOnSep_join (sep l : List Char) :
    sepJoin sep (splitOnSep sep l) = l :=
  splitOnSepGo_join sep l.length l (Nat.le_refl _)

/-- Joining the keep-separator pieces with the empty separator restores the
start-attached shape. -/
theorem sepJoin_attach (sep : List Char) :
    ∀ (ps : List (List Char)) (p : List Char),
      sepJoin [] (p :: ps.map (fun q => sep ++ q)) = sepJoin sep (p :: ps) := by
  intro ps
  induction ps with
  | nil => intro p; rfl
  | cons y rest ih =>
    intro p
    rw [List.map_cons]
    rw [sepJoin_nil_cons]
    rw [ih (sep ++ y)]
    rw [sepJoin_head_append]
    cases rest with
    | nil => simp [sepJoin, List.append_assoc]
    | cons z zs => simp [sepJoin, List.append_assoc]

/-- Characters survive the character-split/join round trip. -/
theorem sepJoin_chars (l : List Char) :
    sepJoin [] (l.map (fun c => [c])) = l := by
  induction l with
  | nil => rfl
  | cons c cs ih =>
    rw [List.map_cons, sepJoin_nil_cons, ih]
    rfl

/-- Concatenating the keep-separator split pieces restores the text. -/
theorem splitWithRegexKeep_join (sep text : List Char) :
    sepJoin [] (splitWithRegexKeep sep text) = text := by
  unfold splitWithRegexKeep
  split
  · rw [sepJoin_nil_filter, sepJoin_chars]
  · rename_i hsep
    cases hx : splitOnSep sep text with
    | nil => exact absurd hx (splitOnSepGo_ne_nil sep text.length text)
    | cons p ps =>
      rw [sepJoin_nil_filter, sepJoin_attach]
      rw [← hx, splitOnSep_join]

/-! ## Claim C7: merge lemmas -/

/-- When every piece fits into one chunk the merge loop just accumulates:
with the empty separator and a running total that never exceeds the chunk
size, no flush happens and the final join covers buffer and pieces. -/
theorem mergeLoop_nil_sep :
    ∀ (splits docs currentDoc : List (List Char)) (total : Nat),
      total = (currentDoc.map List.length).sum →
      total + (splits.map List.length).sum ≤ chunkSize →
      mergeLoop [] splits docs currentDoc total =
        docs ++ (match joinDocs [] (currentDoc ++ splits) with
                 | some doc => [doc]
                 | none => []) := by
  intro splits
  induction splits with
  | nil =>
    intro docs currentDoc total htot hsum
    simp only [mergeLoop, List.append_nil]
    cases joinDocs [] currentDoc <;> simp
  | cons d ds ih =>
    intro docs currentDoc total htot hsum
    simp only [mergeLoop]
    have hno : ¬(total + d.length + (if currentDoc.length > 0 then List.length ([] : List Char) else 0) > chunkSize) := by
      simp only [List.length_nil, ite_self]
      simp only [List.map_cons, List.sum_cons] at hsum
      omega
    rw [if_neg hno]
    dsimp only
    have htot1 : total + d.length + (if (currentDoc ++ [d]).length > 1 then List.length ([] : List Char) else 0) =
        ((currentDoc ++ [d]).map List.length).sum := by
      simp only [List.length_nil, ite_self, List.map_append, List.sum_append, htot]
      simp
    rw [ih docs (currentDoc ++ [d])
        (total + d.length + if (currentDoc ++ [d]).length > 1 then List.length ([] : List Char) else 0)
        htot1
        (by
          simp only [List.length_nil, ite_self]
          simp only [List.map_cons, List.sum_cons] at hsum
          omega)]
    rw [List.append_cons currentDoc d ds]

/-- processSplits with only fitting pieces buffers everything and flushes
once at the end. -/
theorem processSplits_all_good (recurse : List Char → List (List Char))
    (newSeps : List (List Char)) :
    ∀ (splits finalChunks goodSplits : List (List Char)),
      (∀ s ∈ splits, s.length < chunkSize) →
      processSplits recurse newSeps [] splits finalChunks goodSplits =
        (if goodSplits ++ splits = [] then finalChunks
         else finalChunks ++ mergeSplits [] (goodSplits ++ splits)) := by
  intro splits
  induction splits with
  | nil =>
    intro finalChunks goodSplits _
    simp only [processSplits, List.append_nil]
    by_cases hg : goodSplits = []
    · subst hg; simp
    · simp [hg]
  | cons s ss ih =>
    intro finalChunks goodSplits hfit
    simp only [processSplits]
    rw [if_pos (hfit s (List.mem_cons_self _ _))]
    rw [ih finalChunks (goodSplits ++ [s])
      (fun x hx => hfit x (List.mem_cons_of_mem _ hx))]
    have hne : goodSplits ++ [s] ++ ss ≠ [] := by simp
    have hne2 : goodSplits ++ s :: ss ≠ [] := by simp
    rw [if_neg hne, if_neg hne2, List.append_cons goodSplits s ss]

/-- Any one level of the recursive splitter returns the stripped text as the
single chunk (or nothing if only whitespace) whenever the text is shorter
than the chunk size. -/
theorem splitTextFuel_short (fuel : Nat) (separators : List (List Char))
    (text : List Char) (hlen : text.length < chunkSize) :
    splitTextFuel (fuel + 1) separators text =
      (if pyStrip text = [] then [] else [pyStrip text]) := by
  simp only [splitTextFuel]
  have hjoin : sepJoin []
      (splitWithRegexKeep (chooseSeparatorAux (separators.getLast?.getD []) text separators).1 text) = text :=
    splitWithRegexKeep_join _ text
  have hsum : ((splitWithRegexKeep (chooseSeparatorAux (separators.getLast?.getD []) text separators).1 text).map
      List.length).sum = text.length := by
    rw [← sepJoin_nil_length, hjoin]
  have hfit : ∀ s ∈ splitWithRegexKeep (chooseSeparatorAux (separators.getLast?.getD []) text separators).1 text,
      s.length < chunkSize := by
    intro s hs
    have hle : s.length ≤ ((splitWithRegexKeep (chooseSeparatorAux (separators.getLast?.getD []) text separators).1 text).map
        List.length).sum :=
      List.single_le_sum (fun x _ => Nat.zero_le x) _ (List.mem_map_of_mem _ hs)
    omega
  rw [processSplits_all_good _ _ _ [] [] hfit]
  simp only [List.nil_append]
  by_cases hsp : splitWithRegexKeep (chooseSeparatorAux (separators.getLast?.getD []) text separators).1 text = []
  · rw [if_pos hsp]
    have htext : text = [] := by
      rw [← hjoin, hsp]
      rfl
    subst htext
    simp [pyStrip, pyStripLeft]
  · rw [if_neg hsp]
    unfold mergeSplits
    rw [mergeLoop_nil_sep _ [] [] 0 rfl (by rw [hsum]; omega)]
    simp only [List.nil_append]
    unfold joinDocs
    rw [hjoin]
    by_cases hstrip : pyStrip text = []
    · simp [hstrip]
    · simp [hstrip]

/-- RECURSIVE_SPLITTER.split_text on a short text: one stripped chunk, or
none when the text is all whitespace. -/
theorem split_text_short (text : List Char) (hlen : text.length < chunkSize) :
    split_text text = (if pyStrip text = [] then [] else [pyStrip text]) := by
  unfold split_text
  exact splitTextFuel_short 3 defaultSeparators text hlen

/-! ## Claim C7: attention-window lemmas -/

/-- When the summed token counts fit the window, the segment loop emits one
chunk: the buffer followed by the space-rejoined segments. -/
theorem cawLoop_one_chunk (tk : List Char → Nat) (maxChunk : Nat) :
    ∀ (segs : List (List Char)) (chunks : List (List Char)) (chunkText : List Char)
      (acc : Nat), segs ≠ [] → acc + ((segs.map tk).sum) ≤ maxChunk →
      cawLoop tk maxChunk segs chunks chunkText acc =
        Except.ok (chunks ++ [chunkText ++ sepJoin [' '] segs]) := by
  intro segs
  induction segs with
  | nil => intro _ _ _ hne _; exact absurd rfl hne
  | cons seg rest ih =>
    intro chunks chunkText acc _ hsum
    simp only [List.map_cons, List.sum_cons] at hsum
    have h1 : ¬(tk seg > maxChunk) := by omega
    have h2 : ¬(acc + tk seg > maxChunk) := by omega
    cases rest with
    | nil =>
      simp only [cawLoop, if_neg h1, if_neg h2]
      simp [sepJoin]
    | cons y ys =>
      simp only [List.map_cons, List.sum_cons] at hsum
      conv_lhs => rw [cawLoop]
      rw [if_neg h1]
      dsimp only
      rw [if_neg h2]
      dsimp only
      rw [if_neg (show ¬(y :: ys = []) by simp)]
      rw [ih chunks (chunkText ++ seg ++ [' ']) (acc + tk seg) (by simp) (by
        simp only [List.map_cons, List.sum_cons]
        omega)]
      simp [sepJoin, List.append_assoc]

/-- chunk_by_attention_window of a fitting text is the identity chunk. -/
theorem caw_one_chunk (tk : List Char → Nat) (maxInputSize : Nat) (text : List Char)
    (hfit : ((pySplitSpace text).map tk).sum ≤ maxInputSize - 2) :
    chunk_by_attention_window tk maxInputSize text = Except.ok [text] := by
  unfold chunk_by_attention_window
  rw [cawLoop_one_chunk tk (maxInputSize - 2) (pySplitSpace text) [] [] 0
    (splitOnSepGo_ne_nil [' '] text.length text) (by omega)]
  rw [show sepJoin [' '] (pySplitSpace text) = text from splitOnSep_join [' '] text]
  rfl

/-! ## Claim C7: the claim theorems -/

/-- C7 counterexample: the single-space text is non-empty and trivially fits
any token budget, yet chunk_text returns zero chunks (the splitter strips it
to nothing), not the one chunk the claim promises for every non-empty
fitting text. -/
theorem C7_counterexample :
    chunk_text tokLen 512 " ".data = Except.ok [] ∧ " ".data ≠ [] :=
  ⟨rfl, by decide⟩

/-- C7 amended: chunk_text of the empty text is the empty sequence, and for
every text that still holds a non-whitespace character after stripping, is
shorter than the splitter chunk_size, and whose space-split segments together
tokenize within the window budget (max_input_size minus the buffer of 2),
chunk_text returns exactly one chunk: the text stripped of its edge
whitespace.  Texts of pure whitespace — stripped to nothing — yield zero
chunks. -/
theorem C7_chunk_text_amended (tk : List Char → Nat) (maxInputSize : Nat)
    (text : List Char) (hnz : pyStrip text ≠ []) (hlen : text.length < chunkSize)
    (hfit : ((pySplitSpace (pyStrip text)).map tk).sum ≤ maxInputSize - 2) :
    chunk_text tk maxInputSize [] = Except.ok [] ∧
    chunk_text tk maxInputSize text = Except.ok [pyStrip text] := by
  constructor
  · rfl
  · unfold chunk_text
    rw [split_text_short text hlen, if_neg hnz]
    simp only [List.foldl_cons, List.foldl_nil]
    rw [caw_one_chunk tk maxInputSize (pyStrip text) hfit]
    rfl

/-- C7 witness: the amended theorem applied to a concrete two-word text. -/
theorem C7_witness :
    chunk_text tokLen 512 "hello world".data = Except.ok ["hello world".data] :=
  (C7_chunk_text_amended tokLen 512 "hello world".data (by decide) (by decide)
    (by decide)).2

end NewsSearch
